import Mathlib

/-!
Verification of the APM tracker's core (apm_tracker.c): the circular
event buffer (`add_event`), the windowed rate calculator
(`calculate_apm_with_time`), and the persistence codec (`save_data`,
`load_data`).  The compile-time C constant `MAX_EVENTS` becomes an
explicit capacity parameter `C`; the global variables `event_buffer`,
`event_count`, `event_index` become the fields of `TrackerState`.
Timestamps (`time_t`) are modelled as `Int`; the float APM result is
modelled exactly over `Rat`.
-/

/-- The C globals `event_buffer`, `event_count`, `event_index`.
The buffer is a total map on `Nat`; the C array only uses
indices `0..MAX_EVENTS-1`. -/
structure TrackerState where
  event_buffer : Nat → Int
  event_count : Nat
  event_index : Nat

/-- Freshly allocated store: `event_count = 0`, `event_index = 0` (the
malloc'd buffer contents are unspecified; the model uses 0). -/
def empty_state : TrackerState :=
  { event_buffer := fun _ => 0, event_count := 0, event_index := 0 }

/-- The C default capacity: one slot per second for 7 days. -/
def MAX_EVENTS : Nat := 7 * 24 * 60 * 60

/-- `add_event` (apm_tracker.c:107-119), with the recorded timestamp
`now` passed explicitly in place of the `time(NULL)` call.  Both C
branches write at `event_index` and advance it modulo the capacity;
only the not-yet-full branch increments `event_count`. -/
def add_event (C : Nat) (now : Int) (s : TrackerState) : TrackerState :=
  if s.event_count < C then
    { event_buffer := fun j => if j = s.event_index then now else s.event_buffer j
      event_count := s.event_count + 1
      event_index := (s.event_index + 1) % C }
  else
    { event_buffer := fun j => if j = s.event_index then now else s.event_buffer j
      event_count := s.event_count
      event_index := (s.event_index + 1) % C }

/-- A sequence of `add_event` calls with the given timestamps
(first list element recorded first). -/
def record_events (C : Nat) (ts : List Int) (s : TrackerState) : TrackerState :=
  ts.foldl (fun a t => add_event C t a) s

/-- The chronological (oldest-to-newest) reconstruction written by
`save_data`'s loop (apm_tracker.c:195-202): entry `i` is read from slot
`(event_index - event_count + i + MAX_EVENTS) % MAX_EVENTS`, and the
loop runs while `i < event_count && i < MAX_EVENTS`.  In every state
with `event_count ≤ C` the C index expression is nonnegative and equals
the Nat expression below. -/
def chronological_view (C : Nat) (s : TrackerState) : List Int :=
  (List.range (min s.event_count C)).map
    (fun i => s.event_buffer ((s.event_index + i + C - s.event_count) % C))

/-- `calculate_apm_with_time` (apm_tracker.c:123-149).  The window size
`minutes` is an `int` under the caller contract `minutes ≥ 1`; the
float division `(float)count / minutes` is modelled exactly over `Rat`.
In the circular branch the C slot expression
`(event_index - MAX_EVENTS + i + MAX_EVENTS) % MAX_EVENTS` equals
`(event_index + i) % MAX_EVENTS`. -/
def calculate_apm_with_time (C : Nat) (minutes : Nat) (current_time : Int)
    (s : TrackerState) : Rat :=
  if s.event_count = 0 then 0
  else
    ((if s.event_count ≤ C then
        (List.range s.event_count).countP
          (fun i => decide (current_time - minutes * 60 ≤ s.event_buffer i))
      else
        (List.range C).countP
          (fun i => decide (current_time - minutes * 60 ≤
            s.event_buffer ((s.event_index + i) % C)))) : Rat) / (minutes : Rat)

/-- The on-disk header (apm_tracker.h): magic, version, event count. -/
structure FileHeader where
  magic : Nat
  version : Nat
  num_events : Nat
deriving DecidableEq

/-- A header plus the event timestamps of a file body. -/
structure SavedFile where
  header : FileHeader
  events : List Int
deriving DecidableEq

/-- What `fopen`/`fread` can observe of the data file: absent, or a
header followed by the event timestamps physically present in the body
(possibly fewer than the header declares). -/
inductive DataFile where
  | missing : DataFile
  | present : FileHeader → List Int → DataFile

/-- Outcome of `load_data`, which the C code reports on stderr/stdout:
`noFile` ("no existing data file, start fresh", not an error),
`formatError` (bad magic or unsupported version), or
`ok n` ("Loaded n events from data file"). -/
inductive LoadResult where
  | noFile : LoadResult
  | formatError : LoadResult
  | ok : Nat → LoadResult
deriving DecidableEq

/-- `save_data` (apm_tracker.c:158-205) restricted to its
store-dependent content: the header and body written, or `none` for the
empty-store no-op.  I/O failures abort without writing and are outside
the store model. -/
def save_data (C : Nat) (s : TrackerState) : Option SavedFile :=
  if s.event_count = 0 then none
  else some { header := { magic := 0x00415041, version := 1, num_events := s.event_count }
              events := chronological_view C s }

/-- `load_data` (apm_tracker.c:208-291) over a `DataFile`.  `to_read`
is clamped to the capacity before any event is read; a short body stops
the read loop early (`events_read`).  The `event_count > MAX_EVENTS`
branch of the C code is kept below even though
`events_read ≤ to_read ≤ C` makes it unreachable. -/
def load_data (C : Nat) (f : DataFile) (s : TrackerState) :
    TrackerState × LoadResult :=
  match f with
  | .missing => (s, .noFile)
  | .present header body =>
    if header.magic ≠ 0x00415041 then (s, .formatError)
    else if header.version ≠ 1 then (s, .formatError)
    else
      let to_read := min header.num_events C
      let events_read := min to_read body.length
      let temp_buffer := body.take events_read
      if events_read ≤ C then
        ({ event_buffer := fun j => if j < events_read then temp_buffer.getD j 0
                                    else s.event_buffer j
           event_count := events_read
           event_index := events_read }, .ok events_read)
      else
        ({ event_buffer := fun j => if j < C then temp_buffer.getD (events_read - C + j) 0
                                    else s.event_buffer j
           event_count := C
           event_index := 0 }, .ok C)

/-- Little-endian byte serialization of a `w`-byte unsigned integer. -/
def le_bytes (w v : Nat) : List Nat :=
  (List.range w).map (fun i => v / 256 ^ i % 256)

/-- 8-byte two's-complement little-endian encoding of a `time_t`. -/
def time_t_bytes (t : Int) : List Nat :=
  le_bytes 8 (t % (2 ^ 64 : Int)).toNat

/-- The exact byte stream `save_data` writes: the three 4-byte
little-endian header words followed by the events in chronological
order (apm_tracker.c:188, 195-202). -/
def file_bytes (f : SavedFile) : List Nat :=
  le_bytes 4 f.header.magic ++ le_bytes 4 f.header.version ++
    le_bytes 4 f.header.num_events ++ (f.events.map time_t_bytes).flatten

/-- `save_data` as a state transformer: the C function reads the store
globals and writes the file; it assigns to none of the globals. -/
def save_data_op (C : Nat) (s : TrackerState) :
    TrackerState × Option (List Nat) :=
  (s, (save_data C s).map file_bytes)

/-- The layout invariant of spec §3 on store states: bounded length,
and the cursor sits at the length while the store is not full. -/
def WF (C : Nat) (s : TrackerState) : Prop :=
  s.event_count ≤ C ∧ (s.event_count < C → s.event_index = s.event_count)

instance (C : Nat) (s : TrackerState) : Decidable (WF C s) :=
  inferInstanceAs (Decidable (_ ∧ _))

/-! ### Basic facts about the chronological reconstruction -/

/-- Adding a positive multiple-free shift `k < C` to `n` changes the
residue mod `C`. -/
lemma add_mod_ne (C n k : Nat) (h1 : 0 < k) (h2 : k < C) :
    (n + k) % C ≠ n % C := by
  intro h
  have h3 : n + k ≡ n + 0 [MOD C] := by simpa [Nat.ModEq] using h
  have h4 : k ≡ 0 [MOD C] := Nat.ModEq.add_left_cancel' n h3
  have h5 : C ∣ k := Nat.modEq_zero_iff_dvd.mp h4
  have := Nat.le_of_dvd h1 h5
  omega

/-- The slot expression collapses to the identity when the store is
laid out sequentially with the cursor one past the newest record. -/
lemma slot_id (C c i : Nat) (hc : c ≤ C) (hi : i < c) :
    (c % C + i + C - c) % C = i := by
  rcases Nat.lt_or_eq_of_le hc with h | h
  · rw [Nat.mod_eq_of_lt h]
    have he : c + i + C - c = i + C := by omega
    rw [he, Nat.add_mod_right, Nat.mod_eq_of_lt (by omega)]
  · rw [h, Nat.mod_self]
    have he : 0 + i + C - C = i := by omega
    rw [he, Nat.mod_eq_of_lt (by omega)]

/-- Variant of `slot_id` where the cursor is the raw count (how a
freshly loaded state is laid out, even when `c = C`). -/
lemma slot_id_seq (C c i : Nat) (hc : c ≤ C) (hi : i < c) :
    (c + i + C - c) % C = i := by
  have he : c + i + C - c = i + C := by omega
  rw [he, Nat.add_mod_right, Nat.mod_eq_of_lt (by omega)]

lemma chronological_view_length (C : Nat) (s : TrackerState) :
    (chronological_view C s).length = min s.event_count C := by
  simp [chronological_view]

/-- Sequential layout: when the cursor equals the length (which is how
every not-yet-full state and every freshly loaded state is laid out),
the chronological view is just the first `event_count` slots. -/
lemma view_of_sequential (C : Nat) (s : TrackerState)
    (h1 : s.event_count ≤ C) (h2 : s.event_index = s.event_count) :
    chronological_view C s = (List.range s.event_count).map s.event_buffer := by
  unfold chronological_view
  rw [Nat.min_eq_left h1]
  apply List.map_congr_left
  intro i hi
  have hic : i < s.event_count := List.mem_range.mp hi
  rw [h2]
  congr 1
  exact slot_id_seq C s.event_count i h1 hic

/-- Variant of `view_of_sequential` where the cursor is the count
reduced mod `C` (the layout `add_event` produces while filling up). -/
lemma view_of_mod_cursor (C : Nat) (s : TrackerState)
    (h1 : s.event_count ≤ C) (h2 : s.event_index = s.event_count % C) :
    chronological_view C s = (List.range s.event_count).map s.event_buffer := by
  unfold chronological_view
  rw [Nat.min_eq_left h1]
  apply List.map_congr_left
  intro i hi
  rw [h2]
  congr 1
  exact slot_id C s.event_count i h1 (List.mem_range.mp hi)

/-- Full store: the view starts at the cursor and wraps around. -/
lemma view_of_full (C : Nat) (s : TrackerState) (h1 : s.event_count = C) :
    chronological_view C s =
      (List.range C).map (fun i => s.event_buffer ((s.event_index + i) % C)) := by
  unfold chronological_view
  rw [h1, Nat.min_self]
  apply List.map_congr_left
  intro i hi
  congr 1
  have he : s.event_index + i + C - C = s.event_index + i := by omega
  rw [he]

/-- One `add_event` step, starting from the state reached after `n`
records: the count saturates at `C`, the cursor advances mod `C`, and
the chronological view gains `t` at the end, losing its head once the
store is full. -/
theorem add_event_spec (C : Nat) (hC : 0 < C) (n : Nat) (t : Int) (s : TrackerState)
    (hcount : s.event_count = min n C) (hindex : s.event_index = n % C) :
    (add_event C t s).event_count = min (n + 1) C ∧
    (add_event C t s).event_index = (n + 1) % C ∧
    chronological_view C (add_event C t s) =
      (chronological_view C s ++ [t]).drop (min n C + 1 - min (n + 1) C) := by
  have hstate : add_event C t s =
      { event_buffer := fun j => if j = s.event_index then t else s.event_buffer j
        event_count := min (n + 1) C
        event_index := (n + 1) % C } := by
    unfold add_event
    by_cases h : s.event_count < C
    · rw [if_pos h]
      simp only [TrackerState.mk.injEq]
      exact ⟨trivial, by omega, by rw [hindex, Nat.mod_add_mod]⟩
    · rw [if_neg h]
      simp only [TrackerState.mk.injEq]
      exact ⟨trivial, by omega, by rw [hindex, Nat.mod_add_mod]⟩
  refine ⟨by rw [hstate], by rw [hstate], ?_⟩
  rw [hstate]
  by_cases hn : n < C
  · -- store not yet full: the view simply grows at the end
    have hsidx : s.event_index = n := by rw [hindex, Nat.mod_eq_of_lt hn]
    have hscnt : s.event_count = n := by omega
    have hm2 : min (n + 1) C = n + 1 := by omega
    rw [view_of_mod_cursor C _ (by show min (n+1) C ≤ C; omega)
          (by show (n+1) % C = min (n+1) C % C; rw [hm2])]
    rw [view_of_sequential C s (by omega) (by rw [hsidx, hscnt])]
    show (List.range (min (n+1) C)).map _ = _
    rw [hm2, hscnt]
    have hd : min n C + 1 - (n + 1) = 0 := by omega
    rw [hd, List.drop_zero, List.range_succ, List.map_append]
    congr 1
    · apply List.map_congr_left
      intro i hi
      have : i < n := List.mem_range.mp hi
      show (if i = s.event_index then t else s.event_buffer i) = s.event_buffer i
      rw [if_neg (by omega)]
    · show [if n = s.event_index then t else s.event_buffer n] = [t]
      rw [if_pos hsidx.symm]
  · -- store full: the view rotates, dropping the oldest record
    have hscnt : s.event_count = C := by omega
    have hm1 : min n C = C := by omega
    have hm2 : min (n + 1) C = C := by omega
    rw [view_of_full C _ (by show min (n+1) C = C; omega)]
    rw [view_of_full C s hscnt]
    have hd : min n C + 1 - min (n + 1) C = 1 := by omega
    rw [hd]
    have hL : (List.range C).map
          (fun i => ({ event_buffer := fun j => if j = s.event_index then t else s.event_buffer j
                       event_count := min (n + 1) C
                       event_index := (n + 1) % C } : TrackerState).event_buffer
            ((({ event_buffer := fun j => if j = s.event_index then t else s.event_buffer j
                 event_count := min (n + 1) C
                 event_index := (n + 1) % C } : TrackerState).event_index + i) % C)) =
        (List.range C).map
          (fun i => if (n + 1 + i) % C = s.event_index then t
                    else s.event_buffer ((n + 1 + i) % C)) := by
      apply List.map_congr_left
      intro i hi
      show (if ((n + 1) % C + i) % C = s.event_index then t
            else s.event_buffer (((n + 1) % C + i) % C)) = _
      rw [Nat.mod_add_mod]
    have hR : (List.range C).map (fun i => s.event_buffer ((s.event_index + i) % C)) =
        (List.range C).map (fun i => s.event_buffer ((n + i) % C)) := by
      apply List.map_congr_left
      intro i hi
      rw [hindex, Nat.mod_add_mod]
    rw [hL, hR]
    apply List.ext_getElem
    · simp [hC]
    · intro i h₁ h₂
      have hiC : i < C := by simpa using h₁
      simp only [List.getElem_drop, List.getElem_map, List.getElem_range]
      by_cases hic : 1 + i < C
      · rw [List.getElem_append_left (by simpa using hic)]
        simp only [List.getElem_map, List.getElem_range]
        have hne : (n + 1 + i) % C ≠ s.event_index := by
          rw [hindex]
          have h' := add_mod_ne C n (1 + i) (by omega) hic
          have he : n + (1 + i) = n + 1 + i := by omega
          rw [he] at h'
          exact h'
        rw [if_neg hne]
        have he2 : n + (1 + i) = n + 1 + i := by omega
        rw [he2]
      · have hie : 1 + i = C := by omega
        rw [List.getElem_append_right (by simpa using (by omega : C ≤ 1 + i))]
        have hsl : (n + 1 + i) % C = s.event_index := by
          rw [hindex]
          have he : n + 1 + i = n + C := by omega
          rw [he, Nat.add_mod_right]
        rw [if_pos hsl]
        simp [hie]

/-- State reached after recording `ts` into an initially empty store:
the count saturates at the capacity, the cursor is the number of
records mod the capacity, and the chronological view is the suffix of
the recorded timestamps that still fits. -/
theorem record_events_spec (C : Nat) (hC : 0 < C) (ts : List Int) :
    (record_events C ts empty_state).event_count = min ts.length C ∧
    (record_events C ts empty_state).event_index = ts.length % C ∧
    chronological_view C (record_events C ts empty_state) =
      ts.drop (ts.length - C) := by
  induction ts using List.reverseRecOn with
  | nil =>
    refine ⟨by simp [record_events, empty_state], by simp [record_events, empty_state], ?_⟩
    simp [record_events, empty_state, chronological_view]
  | append_singleton l t ih =>
    obtain ⟨h1, h2, h3⟩ := ih
    have hrec : record_events C (l ++ [t]) empty_state =
        add_event C t (record_events C l empty_state) := by
      simp [record_events, List.foldl_append]
    obtain ⟨g1, g2, g3⟩ := add_event_spec C hC l.length t _ h1 h2
    refine ⟨?_, ?_, ?_⟩
    · rw [hrec, g1]; simp
    · rw [hrec, g2]; simp
    · rw [hrec, g3, h3]
      by_cases hn : l.length < C
      · have hd : min l.length C + 1 - min (l.length + 1) C = 0 := by omega
        have hd1 : l.length - C = 0 := by omega
        have hd2 : (l ++ [t]).length - C = 0 := by simp; omega
        rw [hd, hd1, hd2, List.drop_zero, List.drop_zero, List.drop_zero]
      · have hd : min l.length C + 1 - min (l.length + 1) C = 1 := by omega
        rw [hd]
        have hlen : C ≤ (l.drop (l.length - C)).length := by simp; omega
        rw [List.drop_append_of_le_length (by omega), List.drop_drop]
        have hq : (l ++ [t]).length - C = l.length + 1 - C := by simp
        rw [hq, List.drop_append_of_le_length (by omega)]
        have he : l.length - C + 1 = l.length + 1 - C := by omega
        rw [he]

/-- Every state built by recording into an empty store satisfies the
§3 layout invariant. -/
lemma record_events_WF (C : Nat) (hC : 0 < C) (ts : List Int) :
    WF C (record_events C ts empty_state) := by
  obtain ⟨h1, h2, -⟩ := record_events_spec C hC ts
  constructor
  · rw [h1]; omega
  · intro h
    rw [h1] at h
    rw [h1, h2]
    have hn : ts.length < C := by omega
    rw [Nat.mod_eq_of_lt hn]
    omega

/-- Claim C2: for every capacity `C > 0` and `k > 0`, recording `C + k`
strictly increasing timestamps into an empty store leaves a
chronological view (the oldest-to-newest reconstruction used by
`save_data`) equal to the last `C` timestamps, still in increasing
order. -/
theorem claim_c2 (C k : Nat) (ts : List Int) (hC : 0 < C) (hk : 0 < k)
    (hlen : ts.length = C + k) (hmono : ts.Chain' (· < ·)) :
    chronological_view C (record_events C ts empty_state) = ts.drop k ∧
    (ts.drop k).Chain' (· < ·) := by
  obtain ⟨-, -, h3⟩ := record_events_spec C hC ts
  constructor
  · rw [h3, hlen]
    congr 1
    omega
  · exact hmono.drop k

/-- Witness for C2 at `C = 2`, `k = 1`, timestamps `[1, 2, 3]`. -/
theorem claim_c2_witness :
    ((0 : Nat) < 2 ∧ (0 : Nat) < 1 ∧ ([1, 2, 3] : List Int).length = 2 + 1 ∧
      ([1, 2, 3] : List Int).Chain' (· < ·)) ∧
    (chronological_view 2 (record_events 2 [1, 2, 3] empty_state) =
        ([1, 2, 3] : List Int).drop 1 ∧
      (([1, 2, 3] : List Int).drop 1).Chain' (· < ·)) :=
  ⟨⟨by decide, by decide, by decide, by simp [List.chain'_cons]⟩,
    claim_c2 2 1 [1, 2, 3] (by decide) (by decide) (by decide)
      (by simp [List.chain'_cons])⟩

/-- Claim C5: the store length never exceeds the capacity, and after
strictly more than `capacity` calls it equals the capacity. -/
theorem claim_c5 (C : Nat) (ts : List Int) (hC : 0 < C) :
    (record_events C ts empty_state).event_count ≤ C ∧
    (C < ts.length → (record_events C ts empty_state).event_count = C) := by
  obtain ⟨h1, -, -⟩ := record_events_spec C hC ts
  refine ⟨?_, ?_⟩
  · rw [h1]; omega
  · intro h; rw [h1]; omega

/-- Witness for C5 at `C = 2` with three recorded events. -/
theorem claim_c5_witness :
    (0 : Nat) < 2 ∧
    ((record_events 2 [1, 2, 3] empty_state).event_count ≤ 2 ∧
      (2 < ([1, 2, 3] : List Int).length →
        (record_events 2 [1, 2, 3] empty_state).event_count = 2)) :=
  ⟨by decide, claim_c5 2 [1, 2, 3] (by decide)⟩


/-! ### The rate calculator -/

/-- Rotating the index set `0..C-1` by a constant shift mod `C` is a
permutation of it. -/
lemma rotation_perm (C k : Nat) (hC : 0 < C) :
    ((List.range C).map (fun i => (k + i) % C)).Perm (List.range C) := by
  have hnd : ((List.range C).map (fun i => (k + i) % C)).Nodup := by
    refine List.Nodup.map_on ?_ (List.nodup_range C)
    intro i hi j hj hij
    have hi' : i < C := List.mem_range.mp hi
    have hj' : j < C := List.mem_range.mp hj
    have h1 : k + i ≡ k + j [MOD C] := hij
    have h2 : i ≡ j [MOD C] := Nat.ModEq.add_left_cancel' k h1
    have h3 : i % C = j % C := h2
    rwa [Nat.mod_eq_of_lt hi', Nat.mod_eq_of_lt hj'] at h3
  have hsub : ((List.range C).map (fun i => (k + i) % C)).toFinset ⊆
      (List.range C).toFinset := by
    intro x hx
    rw [List.mem_toFinset] at hx
    obtain ⟨i, -, hix⟩ := List.mem_map.mp hx
    rw [List.mem_toFinset, List.mem_range, ← hix]
    exact Nat.mod_lt _ hC
  have heq : ((List.range C).map (fun i => (k + i) % C)).toFinset =
      (List.range C).toFinset := by
    apply Finset.eq_of_subset_of_card_le hsub
    rw [List.toFinset_card_of_nodup hnd, List.toFinset_card_of_nodup (List.nodup_range C)]
    simp
  exact List.perm_of_nodup_nodup_toFinset_eq hnd (List.nodup_range C) heq

/-- Counting over a rotated scan of `C` slots equals counting over the
plain scan: the full-buffer chronological order visits each slot once. -/
lemma countP_rotation (C k : Nat) (hC : 0 < C) (f : Nat → Int) (p : Int → Bool) :
    ((List.range C).map (fun i => f ((k + i) % C))).countP p =
      ((List.range C).map f).countP p := by
  have h1 : (List.range C).map (fun i => f ((k + i) % C)) =
      ((List.range C).map (fun i => (k + i) % C)).map f := by
    rw [List.map_map]
    rfl
  rw [h1]
  exact ((rotation_perm C k hC).map f).countP_eq p

/-- The rate the code computes, characterised over the chronological
view: the number of held records at or after the cutoff
`current_time - minutes*60`, divided by the window size.  Holds for
every state satisfying the §3 layout invariant. -/
lemma calculate_apm_eq_countP (C w : Nat) (now : Int) (s : TrackerState)
    (hC : 0 < C) (hwf : WF C s) :
    calculate_apm_with_time C w now s =
      (((chronological_view C s).countP
          (fun t => decide (now - w * 60 ≤ t)) : Nat) : Rat) / (w : Rat) := by
  obtain ⟨hle, hseq⟩ := hwf
  unfold calculate_apm_with_time
  by_cases h0 : s.event_count = 0
  · rw [if_pos h0]
    have hv : chronological_view C s = [] := by
      unfold chronological_view
      rw [h0]
      simp
    rw [hv]
    simp
  · rw [if_neg h0, if_pos hle]
    congr 1
    norm_cast
    by_cases hfull : s.event_count < C
    · rw [view_of_sequential C s hle (hseq hfull), List.countP_map]
      rfl
    · have hcnt : s.event_count = C := by omega
      rw [view_of_full C s hcnt, hcnt]
      rw [countP_rotation C s.event_index hC s.event_buffer]
      rw [List.countP_map]
      rfl

/-- Recording at most `C` timestamps into an empty store and querying
the rate counts exactly the recorded timestamps past the cutoff. -/
lemma apm_of_recorded (C w : Nat) (now : Int) (l : List Int)
    (hC : 0 < C) (hlen : l.length ≤ C) :
    calculate_apm_with_time C w now (record_events C l empty_state) =
      ((l.countP (fun t => decide (now - w * 60 ≤ t)) : Nat) : Rat) / (w : Rat) := by
  rw [calculate_apm_eq_countP C w now _ hC (record_events_WF C hC l)]
  obtain ⟨-, -, h3⟩ := record_events_spec C hC l
  rw [h3]
  have hz : l.length - C = 0 := by omega
  rw [hz, List.drop_zero]

/-- Claim C6: for every well-formed store state and window `w ≥ 1`,
`calculate_apm_with_time` equals the number of currently held records
with timestamp at or after `now - w*60`, divided by `w`; in particular
it is `0` on an empty store for any window, `60` for 60 records at
`now-0s..now-59s` with window 1, and `1` for 60 records at
`now-0min..now-59min` with window 60. -/
theorem claim_c6 (C w : Nat) (now : Int) (s : TrackerState)
    (h60 : 60 ≤ C) (hwf : WF C s) (hw : 1 ≤ w) :
    calculate_apm_with_time C w now s =
      (((chronological_view C s).countP
          (fun t => decide (now - w * 60 ≤ t)) : Nat) : Rat) / (w : Rat) ∧
    (s.event_count = 0 → calculate_apm_with_time C w now s = 0) ∧
    calculate_apm_with_time C 1 now
      (record_events C ((List.range 60).map (fun (i : Nat) => now - (i : Int)))
        empty_state) = 60 ∧
    calculate_apm_with_time C 60 now
      (record_events C ((List.range 60).map (fun (i : Nat) => now - 60 * (i : Int)))
        empty_state) = 1 := by
  have hC : 0 < C := by omega
  refine ⟨calculate_apm_eq_countP C w now s hC hwf, ?_, ?_, ?_⟩
  · intro h0
    unfold calculate_apm_with_time
    rw [if_pos h0]
  · rw [apm_of_recorded C 1 now _ hC
        (by rw [List.length_map, List.length_range]; omega)]
    have hall : ∀ a ∈ (List.range 60).map (fun (i : Nat) => now - (i : Int)),
        (fun t => decide (now - ((1 : Nat) : Int) * 60 ≤ t)) a = true := by
      intro a ha
      obtain ⟨i, hi, rfl⟩ := List.mem_map.mp ha
      have hi' : i < 60 := List.mem_range.mp hi
      simp only [decide_eq_true_eq]
      omega
    rw [List.countP_eq_length.mpr hall, List.length_map, List.length_range]
    norm_num
  · rw [apm_of_recorded C 60 now _ hC
        (by rw [List.length_map, List.length_range]; omega)]
    have hall : ∀ a ∈ (List.range 60).map (fun (i : Nat) => now - 60 * (i : Int)),
        (fun t => decide (now - ((60 : Nat) : Int) * 60 ≤ t)) a = true := by
      intro a ha
      obtain ⟨i, hi, rfl⟩ := List.mem_map.mp ha
      have hi' : i < 60 := List.mem_range.mp hi
      simp only [decide_eq_true_eq]
      omega
    rw [List.countP_eq_length.mpr hall, List.length_map, List.length_range]
    norm_num

/-- Witness for C6 at `C = 60`, `w = 1`, `now = 0`, empty store. -/
theorem claim_c6_witness :
    ((60 : Nat) ≤ 60 ∧ WF 60 empty_state ∧ (1 : Nat) ≤ 1) ∧
    (calculate_apm_with_time 60 1 0 empty_state =
      (((chronological_view 60 empty_state).countP
          (fun t => decide ((0 : Int) - (1 : Nat) * 60 ≤ t)) : Nat) : Rat) / ((1 : Nat) : Rat) ∧
    (empty_state.event_count = 0 → calculate_apm_with_time 60 1 0 empty_state = 0) ∧
    calculate_apm_with_time 60 1 0
      (record_events 60 ((List.range 60).map (fun (i : Nat) => (0 : Int) - (i : Int)))
        empty_state) = 60 ∧
    calculate_apm_with_time 60 60 0
      (record_events 60 ((List.range 60).map (fun (i : Nat) => (0 : Int) - 60 * (i : Int)))
        empty_state) = 1) :=
  ⟨⟨by decide, by decide, by decide⟩, claim_c6 60 1 0 empty_state (by decide) (by decide) (by decide)⟩

/-- Claim C10: the calculator applies only the lower cutoff
`now - w*60` and no upper bound; a record with timestamp strictly
greater than the reference time is still counted, e.g. a store holding
the single timestamp `now + 1` yields rate `1/w`, not `0`. -/
theorem claim_c10 (C w : Nat) (now : Int) (s : TrackerState)
    (hC : 0 < C) (hwf : WF C s) (hne : s.event_count ≠ 0) (hw : 1 ≤ w) :
    calculate_apm_with_time C w now s =
      (((chronological_view C s).countP
          (fun t => decide (now - w * 60 ≤ t)) : Nat) : Rat) / (w : Rat) ∧
    calculate_apm_with_time C w now (record_events C [now + 1] empty_state) =
      1 / (w : Rat) := by
  refine ⟨calculate_apm_eq_countP C w now s hC hwf, ?_⟩
  rw [apm_of_recorded C w now [now + 1] hC (by simpa using hC)]
  have hcount : ([now + 1] : List Int).countP
      (fun t => decide (now - w * 60 ≤ t)) = 1 := by
    have hp : (decide (now - (w : Int) * 60 ≤ now + 1)) = true := by
      simp only [decide_eq_true_eq]
      omega
    simp only [List.countP_cons, List.countP_nil, hp]
    norm_num
  rw [hcount]
  norm_num

/-- Witness for C10 at `C = 2`, `w = 1`, `now = 0`, one record at 5. -/
theorem claim_c10_witness :
    ((0 : Nat) < 2 ∧ WF 2 (record_events 2 [5] empty_state) ∧
      (record_events 2 [5] empty_state).event_count ≠ 0 ∧ (1 : Nat) ≤ 1) ∧
    (calculate_apm_with_time 2 1 0 (record_events 2 [5] empty_state) =
      (((chronological_view 2 (record_events 2 [5] empty_state)).countP
          (fun t => decide ((0 : Int) - (1 : Nat) * 60 ≤ t)) : Nat) : Rat) / ((1 : Nat) : Rat) ∧
    calculate_apm_with_time 2 1 0 (record_events 2 [(0 : Int) + 1] empty_state) =
      1 / ((1 : Nat) : Rat)) :=
  ⟨⟨by decide, by decide, by decide, by decide⟩,
    claim_c10 2 1 0 (record_events 2 [5] empty_state) (by decide) (by decide)
      (by decide) (by decide)⟩

/-! ### The persistence codec -/

/-- Reading a list back by valid positions reproduces it. -/
lemma map_getD_range (l : List Int) :
    (List.range l.length).map (fun i => l.getD i 0) = l := by
  apply List.ext_getElem
  · simp
  · intro i h₁ h₂
    simp only [List.getElem_map, List.getElem_range]
    exact List.getD_eq_getElem l 0 (by simpa using h₁)

/-- Loading a well-formed file whose body matches its declared count
`n ≤ C` into a fresh store: all `n` events are placed sequentially and
the cursor is set to `n`. -/
lemma load_data_good (Cp n : Nat) (body : List Int)
    (hn : n ≤ Cp) (hb : body.length = n) :
    load_data Cp (DataFile.present ⟨0x00415041, 1, n⟩ body) empty_state =
      ({ event_buffer := fun j => if j < n then body.getD j 0 else 0
         event_count := n
         event_index := n }, .ok n) := by
  simp only [load_data]
  rw [if_neg (by simp), if_neg (by simp)]
  have h1 : min n Cp = n := Nat.min_eq_left hn
  have h2 : min (min n Cp) body.length = n := by omega
  rw [if_pos (by omega)]
  simp only [Prod.mk.injEq, TrackerState.mk.injEq]
  refine ⟨⟨?_, by omega, by omega⟩, by rw [h2]⟩
  funext j
  rw [h2]
  by_cases hj : j < n
  · rw [if_pos hj, if_pos hj]
    have : body.take n = body := by rw [← hb, List.take_length]
    rw [this]
  · rw [if_neg hj, if_neg hj]
    rfl

/-- Claim C3 (round-trip): saving a store with at least one record and
loading the resulting file into a fresh store of equal or greater
capacity reproduces exactly the chronological timestamp sequence. -/
theorem claim_c3 (C Cp : Nat) (s : TrackerState)
    (h1 : 1 ≤ s.event_count) (h2 : s.event_count ≤ C) (h3 : C ≤ Cp) :
    ∃ f : SavedFile, save_data C s = some f ∧
      chronological_view Cp
          (load_data Cp (DataFile.present f.header f.events) empty_state).1 =
        chronological_view C s := by
  have h0 : s.event_count ≠ 0 := by omega
  refine ⟨{ header := { magic := 0x00415041, version := 1, num_events := s.event_count }
            events := chronological_view C s }, ?_, ?_⟩
  · unfold save_data
    rw [if_neg h0]
  · have hviewlen : (chronological_view C s).length = s.event_count := by
      rw [chronological_view_length]
      omega
    rw [load_data_good Cp s.event_count (chronological_view C s) (by omega) hviewlen]
    rw [view_of_sequential Cp _ (by show s.event_count ≤ Cp; omega) rfl]
    show (List.range s.event_count).map
        (fun j => if j < s.event_count then (chronological_view C s).getD j 0 else 0) = _
    have hmc : (List.range s.event_count).map
        (fun j => if j < s.event_count then (chronological_view C s).getD j 0 else 0) =
        (List.range s.event_count).map
          (fun j => (chronological_view C s).getD j 0) := by
      apply List.map_congr_left
      intro i hi
      rw [if_pos (List.mem_range.mp hi)]
    rw [hmc, ← hviewlen, map_getD_range]

/-- Witness for C3: two recorded events at capacity 2, reloaded at
capacity 3. -/
theorem claim_c3_witness :
    ((1 : Nat) ≤ (record_events 2 [4, 9] empty_state).event_count ∧
      (record_events 2 [4, 9] empty_state).event_count ≤ 2 ∧ (2 : Nat) ≤ 3) ∧
    (∃ f : SavedFile, save_data 2 (record_events 2 [4, 9] empty_state) = some f ∧
      chronological_view 3
          (load_data 3 (DataFile.present f.header f.events) empty_state).1 =
        chronological_view 2 (record_events 2 [4, 9] empty_state)) :=
  ⟨⟨by decide, by decide, by decide⟩,
    claim_c3 2 3 (record_events 2 [4, 9] empty_state) (by decide) (by decide) (by decide)⟩

/-- Claim C7: a file with a wrong magic value or an unsupported version
makes `load_data` report a format error and leave the target store
completely unchanged (length, cursor and all records). -/
theorem claim_c7 (C : Nat) (h : FileHeader) (body : List Int) (s : TrackerState)
    (hbad : h.magic ≠ 0x00415041 ∨ h.version ≠ 1) :
    load_data C (DataFile.present h body) s = (s, LoadResult.formatError) := by
  simp only [load_data]
  rcases hbad with hb | hb
  · rw [if_pos hb]
  · by_cases hm : h.magic ≠ 0x00415041
    · rw [if_pos hm]
    · rw [if_neg hm, if_pos hb]

/-- Witness for C7: magic 0 is rejected and the store is untouched. -/
theorem claim_c7_witness :
    (((⟨0, 1, 0⟩ : FileHeader).magic ≠ 0x00415041 ∨
        (⟨0, 1, 0⟩ : FileHeader).version ≠ 1) ∧
      load_data 2 (DataFile.present ⟨0, 1, 0⟩ [3]) empty_state =
        (empty_state, LoadResult.formatError)) :=
  ⟨Or.inl (by decide), claim_c7 2 ⟨0, 1, 0⟩ [3] empty_state (Or.inl (by decide))⟩

/-- Claim C8: loading from a missing file returns the store unchanged
with the "start fresh" outcome, not an error; in particular a fresh
store stays empty. -/
theorem claim_c8 (C : Nat) (s : TrackerState) :
    load_data C DataFile.missing s = (s, LoadResult.noFile) ∧
    (load_data C DataFile.missing empty_state).1.event_count = 0 :=
  ⟨rfl, rfl⟩

/-- Claim C9: `save_data` does not mutate the store, and saving twice
with no intervening mutation produces byte-identical output. -/
theorem claim_c9 (C : Nat) (s : TrackerState) :
    (save_data_op C s).1 = s ∧
    (save_data_op C (save_data_op C s).1).2 = (save_data_op C s).2 :=
  ⟨rfl, rfl⟩

/-- Claim C1 is violated by the code: loading a file that declares 3
events `[10, 20, 30]` into a store of capacity 2 keeps the oldest two
records `[10, 20]`, not the most recent two `[20, 30]` — `load_data`
clamps the number of records it reads to the capacity before reading,
so the file's tail is never read and the "most recent" branch
(apm_tracker.c:277-285) is unreachable. -/
theorem claim_c1_eval :
    chronological_view 2
        (load_data 2 (DataFile.present ⟨0x00415041, 1, 3⟩ [10, 20, 30]) empty_state).1 =
      [10, 20] ∧
    ([10, 20] : List Int) ≠ [20, 30] := by
  constructor
  · decide
  · decide

/-- Claim C4 is violated by the code: loading a file with exactly
`capacity` events sets `event_index = event_count = capacity`, outside
the range `0..capacity-1` (and not the wrapped cursor 0 the invariant
requires for a full store). -/
theorem claim_c4_eval :
    (load_data 2 (DataFile.present ⟨0x00415041, 1, 2⟩ [5, 7]) empty_state).1.event_count = 2 ∧
    (load_data 2 (DataFile.present ⟨0x00415041, 1, 2⟩ [5, 7]) empty_state).1.event_index = 2 ∧
    ¬ (load_data 2 (DataFile.present ⟨0x00415041, 1, 2⟩ [5, 7]) empty_state).1.event_index < 2 := by
  refine ⟨by decide, by decide, by decide⟩
